import Mathlib

/-!
Verification of `allennlp/semparse/contexts/atis_sql_table_context.py`.

The Python module builds, from an optional schema (`all_tables`), an optional
string-constraint specification (`tables_with_strings`) and an optional sqlite
database, a grammar dictionary (nonterminal name → ordered list of expansion
strings), its serialized form, and a table of valid actions.

The embedding below translates the module shallowly:
* Python dicts become insertion-ordered association lists (`dictGet`/`dictSet`);
* Python `sorted(·, reverse=True)` becomes `pySortedRev`, insertion sort under
  the decidable total order "not lexicographically-less" on strings, which is
  code-point lexicographic comparison exactly as in Python;
* the sqlite data source becomes an association list from (table, column) to
  the column's row values; `SELECT DISTINCT` deduplicates them; a missing
  (table, column) models a failing query;
* exceptions become `Except`, and the connection open/close behaviour of
  `__init__` is recorded in explicit result flags.
-/

/-! ### Python string comparison (code-point lexicographic) -/

/-- Lexicographic strict comparison of char lists by code point,
as Python compares strings. -/
def charListLt : List Char → List Char → Bool
  | _, [] => false
  | [], _ :: _ => true
  | a :: as, b :: bs =>
    if a.toNat < b.toNat then true
    else if b.toNat < a.toNat then false
    else charListLt as bs

theorem charListLt_asymm : ∀ (a b : List Char),
    charListLt a b = true → charListLt b a = false := by
  intro a
  induction a with
  | nil =>
    intro b h
    cases b with
    | nil => simp [charListLt] at h
    | cons y ys => simp [charListLt]
  | cons x xs ih =>
    intro b h
    cases b with
    | nil => simp [charListLt] at h
    | cons y ys =>
      simp only [charListLt] at h ⊢
      rcases Nat.lt_trichotomy x.toNat y.toNat with h1 | h1 | h1
      · rw [if_neg (by omega), if_pos h1]
      · rw [if_neg (by omega), if_neg (by omega)]
        rw [if_neg (by omega), if_neg (by omega)] at h
        exact ih ys h
      · rw [if_neg (by omega), if_pos h1] at h
        exact absurd h (by simp)

theorem charListLt_conn : ∀ (a b : List Char),
    charListLt a b = false → charListLt b a = false → a = b := by
  intro a
  induction a with
  | nil =>
    intro b h1 h2
    cases b with
    | nil => rfl
    | cons y ys => simp [charListLt] at h1
  | cons x xs ih =>
    intro b h1 h2
    cases b with
    | nil => simp [charListLt] at h2
    | cons y ys =>
      simp only [charListLt] at h1 h2
      rcases Nat.lt_trichotomy x.toNat y.toNat with h | h | h
      · rw [if_pos h] at h1
        exact absurd h1 (by simp)
      · rw [if_neg (by omega), if_neg (by omega)] at h1
        rw [if_neg (by omega), if_neg (by omega)] at h2
        have hx : x = y := Char.ext (UInt32.ext h)
        rw [hx, ih ys h1 h2]
      · rw [if_pos h] at h2
        exact absurd h2 (by simp)

theorem charListLt_trans : ∀ (a b c : List Char),
    charListLt a b = true → charListLt b c = true → charListLt a c = true := by
  intro a
  induction a with
  | nil =>
    intro b c h1 h2
    cases c with
    | nil =>
      cases b with
      | nil => simp [charListLt] at h1
      | cons y ys => simp [charListLt] at h2
    | cons z zs => simp [charListLt]
  | cons x xs ih =>
    intro b c h1 h2
    cases b with
    | nil => simp [charListLt] at h1
    | cons y ys =>
      cases c with
      | nil => simp [charListLt] at h2
      | cons z zs =>
        simp only [charListLt] at h1 h2 ⊢
        rcases Nat.lt_trichotomy x.toNat y.toNat with hxy | hxy | hxy
        · rcases Nat.lt_trichotomy y.toNat z.toNat with hyz | hyz | hyz
          · rw [if_pos (by omega)]
          · rw [if_pos (by omega)]
          · rw [if_neg (by omega), if_pos hyz] at h2
            exact absurd h2 (by simp)
        · rcases Nat.lt_trichotomy y.toNat z.toNat with hyz | hyz | hyz
          · rw [if_pos (by omega)]
          · rw [if_neg (by omega), if_neg (by omega)]
            rw [if_neg (by omega), if_neg (by omega)] at h1
            rw [if_neg (by omega), if_neg (by omega)] at h2
            exact ih ys zs h1 h2
          · rw [if_neg (by omega), if_pos hyz] at h2
            exact absurd h2 (by simp)
        · rw [if_neg (by omega), if_pos hxy] at h1
          exact absurd h1 (by simp)

/-- The total order "a is not lexicographically below b" used for
Python `sorted(·, reverse=True)` (descending order). -/
def pyGe (a b : String) : Prop := charListLt a.data b.data = false

/-- Strict descending comparison between strings: `a` is strictly above `b`. -/
def pyGt (a b : String) : Prop := charListLt b.data a.data = true

instance : DecidableRel pyGe := fun a b =>
  inferInstanceAs (Decidable (charListLt a.data b.data = false))

instance : IsTotal String pyGe := by
  constructor
  intro a b
  cases h : charListLt a.data b.data with
  | false => exact Or.inl h
  | true => exact Or.inr (charListLt_asymm _ _ h)

instance : IsTrans String pyGe := by
  constructor
  intro a b c hab hbc
  cases h : charListLt a.data c.data with
  | false => exact h
  | true =>
    exfalso
    cases hba : charListLt b.data a.data with
    | false =>
      have : a.data = b.data := charListLt_conn _ _ hab hba
      rw [this] at h
      exact absurd h (by rw [hbc]; simp)
    | true =>
      have : charListLt b.data c.data = true := charListLt_trans _ _ _ hba h
      rw [hbc] at this
      exact absurd this (by simp)

instance : IsAntisymm String pyGe := by
  constructor
  intro a b hab hba
  exact String.ext (charListLt_conn _ _ hab hba)

/-- Embedding of Python `sorted(l, reverse=True)` on lists of strings. -/
def pySortedRev (l : List String) : List String := List.insertionSort pyGe l

theorem pySortedRev_perm (l : List String) : (pySortedRev l).Perm l :=
  List.perm_insertionSort pyGe l

theorem pySortedRev_sorted (l : List String) : List.Sorted pyGe (pySortedRev l) :=
  List.sorted_insertionSort pyGe l

theorem pySortedRev_eq_of_perm {l₁ l₂ : List String} (h : l₁.Perm l₂) :
    pySortedRev l₁ = pySortedRev l₂ := by
  apply List.eq_of_perm_of_sorted (r := pyGe)
  · exact ((pySortedRev_perm l₁).trans h).trans (pySortedRev_perm l₂).symm
  · exact pySortedRev_sorted l₁
  · exact pySortedRev_sorted l₂

/-! ### Python dict as an insertion-ordered association list -/

/-- A grammar dictionary: nonterminal name → list of expansion strings,
in insertion order, as a Python dict. -/
abbrev GD := List (String × List String)

/-- Python dict read: value of the first (unique) matching key. -/
def dictGet (gd : GD) (k : String) : Option (List String) :=
  match gd with
  | [] => none
  | (k₀, v₀) :: rest => if k₀ = k then some v₀ else dictGet rest k

/-- Python dict write: update in place when the key exists,
append at the end otherwise. -/
def dictSet (gd : GD) (k : String) (v : List String) : GD :=
  match gd with
  | [] => [(k, v)]
  | (k₀, v₀) :: rest =>
    if k₀ = k then (k₀, v) :: rest else (k₀, v₀) :: dictSet rest k v

theorem dictGet_dictSet_self (gd : GD) (k : String) (v : List String) :
    dictGet (dictSet gd k v) k = some v := by
  induction gd with
  | nil => simp [dictGet, dictSet]
  | cons p rest ih =>
    obtain ⟨k₀, v₀⟩ := p
    by_cases h : k₀ = k
    · simp [dictGet, dictSet, h]
    · simp [dictGet, dictSet, h, ih]

theorem dictGet_dictSet_ne (gd : GD) (k k' : String) (v : List String)
    (h : k' ≠ k) : dictGet (dictSet gd k v) k' = dictGet gd k' := by
  have hne : ¬ k = k' := fun hh => h hh.symm
  induction gd with
  | nil => simp [dictGet, dictSet, hne]
  | cons p rest ih =>
    obtain ⟨k₀, v₀⟩ := p
    by_cases h0 : k₀ = k
    · subst h0
      simp [dictGet, dictSet, hne]
    · simp [dictGet, dictSet, h0, ih]

/-! ### The base grammar template and the keyword list (source lines 33-73) -/

/-- `GRAMMAR_DICTIONARY` of the source, in source order; adjacent Python
string literals are concatenated as Python does. -/
def GRAMMAR_DICTIONARY : GD :=
  [ ("statement", ["query ws \";\" ws"]),
    ("query",
      ["(ws \"(\" ws \"SELECT\" ws distinct ws select_results ws \"FROM\" ws table_refs ws where_clause ws \")\" ws)",
       "(ws \"SELECT\" ws distinct ws select_results ws \"FROM\" ws table_refs ws where_clause ws)"]),
    ("select_results", ["col_refs", "agg"]),
    ("agg", ["agg_func ws \"(\" ws col_ref ws \")\""]),
    ("agg_func", ["\"MIN\"", "\"min\"", "\"MAX\"", "\"max\"", "\"COUNT\"", "\"count\""]),
    ("col_refs", ["(col_ref ws \",\" ws col_refs)", "(col_ref)"]),
    ("table_refs", ["(table_name ws \",\" ws table_refs)", "(table_name)"]),
    ("where_clause", ["(\"WHERE\" ws \"(\" ws conditions ws \")\" ws)", "(\"WHERE\" ws conditions ws)"]),
    ("conditions",
      ["(condition ws conj ws conditions)",
       "(condition ws conj ws \"(\" ws conditions ws \")\")",
       "(\"(\" ws conditions ws \")\" ws conj ws conditions)",
       "(\"(\" ws conditions ws \")\")",
       "(\"not\" ws conditions ws )",
       "(\"NOT\" ws conditions ws )",
       "condition"]),
    ("condition", ["in_clause", "ternaryexpr", "biexpr"]),
    ("in_clause", ["(ws col_ref ws \"IN\" ws query ws)"]),
    ("biexpr", ["( col_ref ws binaryop ws value)", "(value ws binaryop ws value)"]),
    ("binaryop",
      ["\"+\"", "\"-\"", "\"*\"", "\"/\"", "\"=\"", "\">=\"", "\"<=\"", "\">\"", "\"<\"", "\"is\"", "\"IS\""]),
    ("ternaryexpr",
      ["(col_ref ws \"not\" ws \"BETWEEN\" ws value ws \"AND\" ws value ws)",
       "(col_ref ws \"NOT\" ws \"BETWEEN\" ws value ws \"AND\" ws value ws)",
       "(col_ref ws \"BETWEEN\" ws value ws \"AND\" ws value ws)"]),
    ("value", ["(\"not\" ws pos_value)", "(\"NOT\" ws pos_value)", "(pos_value)"]),
    ("pos_value",
      ["(\"ALL\" ws query)", "(\"ANY\" ws query)", "number", "boolean", "col_ref", "agg_results", "\"NULL\""]),
    ("agg_results",
      ["(ws \"(\"  ws \"SELECT\" ws distinct ws agg ws \"FROM\" ws table_name ws where_clause ws \")\" ws)",
       "(ws \"SELECT\" ws distinct ws agg ws \"FROM\" ws table_name ws where_clause ws)"]),
    ("boolean", ["\"true\"", "\"false\""]),
    ("ws", ["~\"\\s*\"i"]),
    ("conj", ["\"AND\"", "\"OR\""]),
    ("distinct", ["(\"DISTINCT\")", "(\"\")"]),
    ("number", ["\"\""]) ]

/-- `KEYWORDS` of the source (lines 72-73). -/
def KEYWORDS : List String :=
  ["\"SELECT\"", "\"FROM\"", "\"MIN\"", "\"MAX\"", "\"COUNT\"", "\"WHERE\"", "\"NOT\"", "\"IN\"", "\"LIKE\"",
   "\"IS\"", "\"BETWEEN\"", "\"AND\"", "\"ALL\"", "\"ANY\"", "\"NULL\"", "\"OR\"", "\"DISTINCT\""]

/-! ### The data source -/

/-- A snapshot of the sqlite database: (table, column) → list of the values of
that column across the table's rows. -/
abbrev DB := List ((String × String) × List String)

/-- Locate the raw row values of a column; `none` models a failing query
(for example a missing table). -/
def rawLookup (db : DB) (t c : String) : Option (List String) :=
  match db with
  | [] => none
  | (k, v) :: rest => if k = (t, c) then some v else rawLookup rest t c

/-- First-occurrence deduplication, as `SELECT DISTINCT` returns one row per
distinct value. -/
def distinctAux (seen : List String) : List String → List String
  | [] => []
  | x :: xs => if x ∈ seen then distinctAux seen xs else x :: distinctAux (x :: seen) xs

/-- Result of `cursor.execute(f'SELECT DISTINCT {t} . {c} FROM {t}')` followed
by `fetchall`. -/
def dbQuery (db : DB) (t c : String) : Option (List String) :=
  (rawLookup db t c).map (distinctAux [])

/-- Python truthiness of an optional dict-valued argument
(`None` and the empty dict are falsy). -/
def pyTruthyDict (o : Option (List (String × List String))) : Bool :=
  match o with
  | none => false
  | some l => !l.isEmpty

/-- Python truthiness of an optional string argument
(`None` and the empty string are falsy). -/
def pyTruthyStr (o : Option String) : Bool :=
  match o with
  | none => false
  | some s => !(s == "")

/-- Python `str.endswith`. -/
def strEndsWith (s sfx : String) : Bool := List.isSuffixOf sfx.data s.data

/-! ### Construction (`__init__` / `initialize_grammar_str`, source lines 93-146) -/

/-- The exceptions construction can raise in the embedded fragment:
`attributeError` models the `AttributeError` of touching `self.cursor` when no
database file was supplied, `dataSourceError` a failing distinct-value query,
and `undefinedLabel` the PEG engine's error for a grammar that references an
undefined nonterminal when `Grammar(self.grammar_str)` compiles it. -/
inductive InitError
  | attributeError
  | dataSourceError
  | undefinedLabel
deriving DecidableEq

/-- Source lines 135-142: the inner `for column in columns` loop, threading the
grammar dictionary and recording each (table, column) pair whose query was
actually executed. -/
def processColumns (hasCursor : Bool) (db : DB) (t : String) :
    List String → GD → List (String × String) →
    Except InitError GD × List (String × String)
  | [], gd, queried => (Except.ok gd, queried)
  | c :: rest, gd, queried =>
    if hasCursor then
      let queried' := queried ++ [(t, c)]
      match dbQuery db t c with
      | none => (Except.error InitError.dataSourceError, queried')
      | some vs =>
        let entry := if strEndsWith c "number"
          then pySortedRev (vs.map (fun v => "\"" ++ v ++ "\""))
          else pySortedRev (vs.map (fun v => "\"\x27" ++ v ++ "\x27\""))
        processColumns hasCursor db t rest
          (dictSet gd (t ++ "_" ++ c ++ "_string") entry) queried'
    else (Except.error InitError.attributeError, queried)

/-- Source lines 132-142: the outer `for table, columns in
self.tables_with_strings.items()` loop, accumulating the synthesized `biexpr`
productions before processing each table's columns. -/
def processTables (hasCursor : Bool) (db : DB) :
    List (String × List String) → GD → List String → List (String × String) →
    Except InitError (GD × List String) × List (String × String)
  | [], gd, biexprs, queried => (Except.ok (gd, biexprs), queried)
  | (t, cols) :: rest, gd, biexprs, queried =>
    let biexprs' := biexprs ++ cols.map (fun c =>
      "(\"" ++ t ++ "\" ws \".\" ws \"" ++ c ++ "\" ws binaryop ws " ++ t ++ "_" ++ c ++ "_string)")
    match processColumns hasCursor db t cols gd queried with
    | (Except.error e, q) => (Except.error e, q)
    | (Except.ok gd', q) => processTables hasCursor db rest gd' biexprs' q

/-- Source lines 120-128: when `all_tables` is truthy, install the
`table_name` productions and the `col_ref` productions (wildcard first, then
one alternative per (table, column) pair, the whole list sorted descending). -/
def augmentSchema (allTables : Option (List (String × List String))) (gd : GD) : GD :=
  if pyTruthyDict allTables then
    let ts := allTables.getD []
    let gd₁ := dictSet gd "table_name"
      (pySortedRev (ts.map (fun p => "\"" ++ p.1 ++ "\"")))
    let colRefs := ts.foldl
      (fun acc p => acc ++ p.2.map (fun c => "(\"" ++ p.1 ++ "\" ws \".\" ws \"" ++ c ++ "\")"))
      ["\"*\""]
    dictSet gd₁ "col_ref" (pySortedRev colRefs)
  else gd

/-- Modelled from the spec: `format_grammar_string` lives in
`sql_context_utils`, which is not among the provided source files; §4.4 asks
for one rule per nonterminal with its alternatives joined by the
ordered-choice operator, preserving the dictionary's order. -/
def format_grammar_string (gd : GD) : String :=
  String.intercalate "\n"
    (gd.map (fun p => p.1 ++ " = " ++ String.intercalate " / " p.2))

/-- Source lines 144-145: after the loops, the `biexpr` entry becomes the
synthesized productions sorted descending followed by the two generic
fallback alternatives. -/
def mkFinalGD (gd : GD) (biexprs : List String) : GD :=
  dictSet gd "biexpr"
    (pySortedRev biexprs ++ ["( col_ref ws binaryop ws value)", "(value ws binaryop ws value)"])

/-- Source lines 119-146: `initialize_grammar_str`, returning the updated
grammar dictionary with its serialized form, or the exception raised, together
with the queries that were executed. -/
def initialize_grammar_str (allTables tablesWithStrings : Option (List (String × List String)))
    (hasCursor : Bool) (db : DB) (gd₀ : GD) :
    Except InitError (GD × String) × List (String × String) :=
  match (if pyTruthyDict tablesWithStrings
    then processTables hasCursor db (tablesWithStrings.getD []) (augmentSchema allTables gd₀) [] []
    else (Except.ok (augmentSchema allTables gd₀, []), [])) with
  | (Except.error e, q) => (Except.error e, q)
  | (Except.ok (gd₂, biexprs), q) =>
    (Except.ok (mkFinalGD gd₂ biexprs, format_grammar_string (mkFinalGD gd₂ biexprs)), q)

/-! ### Valid actions (modelled from the spec) -/

/-- Modelled from the spec: ASCII uppercasing of one character, as used by
keyword canonicalization. -/
def charUpper (c : Char) : Char :=
  if 97 ≤ c.toNat ∧ c.toNat ≤ 122 then Char.ofNat (c.toNat - 32) else c

/-- Modelled from the spec: ASCII uppercasing of a string. -/
def strUpper (s : String) : String := ⟨s.data.map charUpper⟩

/-- Splitting a character list at every space, keeping empty chunks. -/
def splitSpacesAux (cur : List Char) : List Char → List (List Char)
  | [] => [cur.reverse]
  | c :: cs => if c = ' ' then cur.reverse :: splitSpacesAux [] cs else splitSpacesAux (c :: cur) cs

/-- Modelled from the spec (§4.5): the case-normal form of an action string —
every whitespace-separated token whose uppercase form is in the keyword list is
replaced by that uppercase form. Two productions differ only in keyword
letter-casing exactly when their normal forms coincide. -/
def normAction (keywords : List String) (s : String) : String :=
  String.intercalate " "
    ((splitSpacesAux [] s.data).map (fun w =>
      let tok : String := ⟨w⟩
      if keywords.contains (strUpper tok) then strUpper tok else tok))

/-- Modelled from the spec (§4.5): collapse a list of action strings so that of
any group sharing a case-normal form only the first-encountered rendering is
kept. -/
def collapseActions (norm : String → String) (seen : List String) :
    List String → List String
  | [] => []
  | a :: as =>
    if norm a ∈ seen then collapseActions norm seen as
    else a :: collapseActions norm (norm a :: seen) as

/-- Modelled from the spec: `initialize_valid_actions` lives in
`sql_context_utils`, which is not among the provided source files; §4.5 asks,
for every nonterminal of the compiled grammar, for the canonical strings
`LHS -> RHS`, with productions differing only in keyword letter-casing
collapsed to the first-encountered casing. -/
def initialize_valid_actions (gd : GD) (keywords : List String) : GD :=
  gd.map (fun p =>
    (p.1, collapseActions (normAction keywords) []
      (p.2.map (fun rhs => p.1 ++ " -> " ++ rhs))))

/-! ### Grammar compilation (modelled from the spec) -/

/-- Characters that can make up a nonterminal reference in a grammar rule:
ASCII letters, digits and the underscore. -/
def isIdentChar (c : Char) : Bool :=
  (97 ≤ c.toNat && c.toNat ≤ 122) || (65 ≤ c.toNat && c.toNat ≤ 90)
    || (48 ≤ c.toNat && c.toNat ≤ 57) || c == '_'

/-- Scanner state while reading an expansion pattern: ordinary text, inside a
quoted literal, or absorbing the flag letters that may follow a closing quote
(as in the regex term of the whitespace rule). -/
inductive ScanMode
  | normal
  | quoted
  | flags

/-- A pending identifier, emitted when its end is reached. -/
def closeIdent (cur : List Char) : List String :=
  match cur with
  | [] => []
  | _ => [⟨cur.reverse⟩]

/-- Modelled from the spec: the nonterminal references of one expansion
pattern. Quoted literals (with any flag letters after the closing quote) are
terminals, everything else that forms an identifier is a reference, as the PEG
engine reads the serialized rule. -/
def scanRefsAux : ScanMode → List Char → List Char → List String
  | _, cur, [] => closeIdent cur
  | ScanMode.normal, cur, c :: cs =>
    if c = '"' then closeIdent cur ++ scanRefsAux ScanMode.quoted [] cs
    else if isIdentChar c then scanRefsAux ScanMode.normal (c :: cur) cs
    else closeIdent cur ++ scanRefsAux ScanMode.normal [] cs
  | ScanMode.quoted, _, c :: cs =>
    if c = '"' then scanRefsAux ScanMode.flags [] cs
    else scanRefsAux ScanMode.quoted [] cs
  | ScanMode.flags, _, c :: cs =>
    if isIdentChar c then scanRefsAux ScanMode.flags [] cs
    else if c = '"' then scanRefsAux ScanMode.quoted [] cs
    else scanRefsAux ScanMode.normal [] cs

/-- The nonterminal references of one expansion pattern. -/
def exprRefs (s : String) : List String := scanRefsAux ScanMode.normal [] s.data

/-- The references of a list of expansion patterns. -/
def exprListRefs : List String → List String
  | [] => []
  | e :: es => exprRefs e ++ exprListRefs es

/-- Every nonterminal reference occurring in a grammar dictionary. -/
def allRefs : GD → List String
  | [] => []
  | (_, alts) :: rest => exprListRefs alts ++ allRefs rest

/-- The nonterminal names a grammar dictionary defines. -/
def gdKeys (gd : GD) : List String := gd.map Prod.fst

/-- Modelled from the spec: the PEG engine (parsimonious, an external
collaborator not under src/) resolves every nonterminal reference while
`Grammar(self.grammar_str)` compiles the serialized grammar, and §4.5 makes a
reference to an undefined nonterminal a fatal, atomic construction failure
(`UndefinedLabel`). The grammar compiles exactly when every reference is a
defined nonterminal. -/
def grammarCompiles (gd : GD) : Bool :=
  (allRefs gd).all (fun r => (gdKeys gd).contains r)

/-! ### The constructed context and `__init__` -/

/-- The observable state of a fully constructed `AtisSqlTableContext`. -/
structure AtisContext where
  grammarDictionary : GD
  grammarStr : String
  validActions : GD

/-- Outcome of running `AtisSqlTableContext.__init__`: the constructed object
or the exception escaping, plus the connection lifecycle flags and the
distinct-value queries that were executed. -/
structure InitResult where
  result : Except InitError AtisContext
  connectionOpened : Bool
  connectionClosed : Bool
  queriedPairs : List (String × String)

/-- Source lines 93-109: `__init__`. A truthy `database_file` opens the
connection and creates the cursor; then line 105 builds the grammar string,
line 106 compiles it — raising `UndefinedLabel` when it references an
undefined nonterminal, for example `col_ref`/`table_name` with no schema —
line 107 derives the valid actions, and only then is the connection closed.
An exception raised anywhere in between propagates without reaching the
close. -/
def atisInit (allTables tablesWithStrings : Option (List (String × List String)))
    (databaseFile : Option String) (db : DB) : InitResult :=
  match initialize_grammar_str allTables tablesWithStrings (pyTruthyStr databaseFile) db
      GRAMMAR_DICTIONARY with
  | (Except.error e, q) =>
    { result := Except.error e
      connectionOpened := pyTruthyStr databaseFile
      connectionClosed := false
      queriedPairs := q }
  | (Except.ok (gd, gs), q) =>
    if grammarCompiles gd then
      { result := Except.ok
          { grammarDictionary := gd
            grammarStr := gs
            validActions := initialize_valid_actions gd KEYWORDS }
        connectionOpened := pyTruthyStr databaseFile
        connectionClosed := pyTruthyStr databaseFile
        queriedPairs := q }
    else
      { result := Except.error InitError.undefinedLabel
        connectionOpened := pyTruthyStr databaseFile
        connectionClosed := false
        queriedPairs := q }

/-! ### Observation helpers -/

/-- The grammar dictionary of a successful construction. -/
def resultGD (r : InitResult) : Option GD :=
  match r.result with
  | Except.ok ctx => some ctx.grammarDictionary
  | Except.error _ => none

/-- The entry of a nonterminal in the grammar dictionary of a successful
construction (`some none` when construction succeeded without that entry). -/
def resultEntry (r : InitResult) (k : String) : Option (Option (List String)) :=
  (resultGD r).map (fun gd => dictGet gd k)

/-! ### Synthesized names and productions -/

/-- The per-column literal nonterminal names a `tables_with_strings`
specification generates, in processing order. -/
def litNames : List (String × List String) → List String
  | [] => []
  | (t, cols) :: rest => cols.map (fun c => t ++ "_" ++ c ++ "_string") ++ litNames rest

/-- The `biexpr` productions a `tables_with_strings` specification synthesizes,
in processing order. -/
def synthesizedBiexprs : List (String × List String) → List String
  | [] => []
  | (t, cols) :: rest =>
    cols.map (fun c =>
      "(\"" ++ t ++ "\" ws \".\" ws \"" ++ c ++ "\" ws binaryop ws " ++ t ++ "_" ++ c ++ "_string)")
      ++ synthesizedBiexprs rest

/-! ### Generated key names never clash with the fixed nonterminals -/

theorem append_string_suffix_ne (l : List Char) (tgt : String)
    (h : ∀ n, n ≤ tgt.data.length → "_string".data ≠ tgt.data.drop n) :
    l ++ "_string".data ≠ tgt.data := by
  intro heq
  have h7 : ("_string".data).length = 7 := by decide
  have hlen : l.length + 7 = tgt.data.length := by
    have := congrArg List.length heq
    simpa [h7] using this
  have hdrop : tgt.data.drop l.length = "_string".data := by
    rw [← heq]
    exact List.drop_left l _
  exact h l.length (by omega) hdrop.symm

theorem litName_data (t c : String) :
    (t ++ "_" ++ c ++ "_string").data = (t.data ++ "_".data ++ c.data) ++ "_string".data := by
  simp [String.data_append, List.append_assoc]

theorem litName_ne (t c tgt : String)
    (h : ∀ n, n ≤ tgt.data.length → "_string".data ≠ tgt.data.drop n) :
    t ++ "_" ++ c ++ "_string" ≠ tgt := by
  intro heq
  apply append_string_suffix_ne (t.data ++ "_".data ++ c.data) tgt h
  rw [← litName_data, heq]

theorem litName_ne_table_name (t c : String) : t ++ "_" ++ c ++ "_string" ≠ "table_name" :=
  litName_ne t c _ (by decide)

theorem litName_ne_col_ref (t c : String) : t ++ "_" ++ c ++ "_string" ≠ "col_ref" :=
  litName_ne t c _ (by decide)

theorem litName_ne_biexpr (t c : String) : t ++ "_" ++ c ++ "_string" ≠ "biexpr" :=
  litName_ne t c _ (by decide)

/-! ### Deduplication lemmas -/

theorem mem_distinctAux : ∀ (l : List String) (seen : List String) (x : String),
    x ∈ distinctAux seen l ↔ x ∈ l ∧ x ∉ seen := by
  intro l
  induction l with
  | nil => intro seen x; simp [distinctAux]
  | cons y ys ih =>
    intro seen x
    by_cases hy : y ∈ seen
    · rw [distinctAux, if_pos hy, ih]
      constructor
      · rintro ⟨hx, hs⟩
        exact ⟨List.mem_cons_of_mem _ hx, hs⟩
      · rintro ⟨hx, hs⟩
        rcases List.mem_cons.1 hx with rfl | hx
        · exact absurd hy hs
        · exact ⟨hx, hs⟩
    · rw [distinctAux, if_neg hy]
      constructor
      · intro hmem
        rcases List.mem_cons.1 hmem with rfl | hmem
        · exact ⟨List.mem_cons_self _ _, hy⟩
        · obtain ⟨hx, hs⟩ := (ih _ _).1 hmem
          exact ⟨List.mem_cons_of_mem _ hx, fun hxs => hs (List.mem_cons_of_mem _ hxs)⟩
      · rintro ⟨hx, hs⟩
        rcases List.mem_cons.1 hx with rfl | hx
        · exact List.mem_cons_self _ _
        · by_cases hxy : x = y
          · subst hxy
            exact List.mem_cons_self _ _
          · refine List.mem_cons_of_mem _ ((ih _ _).2 ⟨hx, ?_⟩)
            intro hmem
            rcases List.mem_cons.1 hmem with h1 | h1
            · exact hxy h1
            · exact hs h1

theorem nodup_distinctAux : ∀ (l : List String) (seen : List String),
    (distinctAux seen l).Nodup := by
  intro l
  induction l with
  | nil => intro seen; simp [distinctAux]
  | cons y ys ih =>
    intro seen
    by_cases hy : y ∈ seen
    · simpa [distinctAux, if_pos hy] using ih seen
    · simp only [distinctAux, if_neg hy, List.nodup_cons]
      refine ⟨fun hmem => ?_, ih _⟩
      have := (mem_distinctAux ys (y :: seen) y).1 hmem
      exact this.2 (List.mem_cons_self _ _)

theorem distinctAux_perm {l₁ l₂ : List String} (h : l₁.Perm l₂) :
    (distinctAux [] l₁).Perm (distinctAux [] l₂) := by
  rw [List.perm_ext_iff_of_nodup (nodup_distinctAux l₁ []) (nodup_distinctAux l₂ [])]
  intro a
  simp [mem_distinctAux, h.mem_iff]

/-! ### Collapse lemmas (keyword-case canonicalization) -/

theorem mem_collapseActions (norm : String → String) :
    ∀ (l seen : List String) (a : String),
    a ∈ collapseActions norm seen l → a ∈ l ∧ norm a ∉ seen := by
  intro l
  induction l with
  | nil => intro seen a h; simp [collapseActions] at h
  | cons x xs ih =>
    intro seen a h
    by_cases hx : norm x ∈ seen
    · rw [collapseActions, if_pos hx] at h
      obtain ⟨h1, h2⟩ := ih seen a h
      exact ⟨List.mem_cons_of_mem _ h1, h2⟩
    · rw [collapseActions, if_neg hx] at h
      rcases List.mem_cons.1 h with rfl | h
      · exact ⟨List.mem_cons_self _ _, hx⟩
      · obtain ⟨h1, h2⟩ := ih _ a h
        refine ⟨List.mem_cons_of_mem _ h1, fun hs => h2 (List.mem_cons_of_mem _ hs)⟩

theorem collapseActions_norm_inj (norm : String → String) :
    ∀ (l seen : List String), ∀ a ∈ collapseActions norm seen l,
    ∀ b ∈ collapseActions norm seen l, norm a = norm b → a = b := by
  intro l
  induction l with
  | nil => intro seen a ha; simp [collapseActions] at ha
  | cons x xs ih =>
    intro seen a ha b hb hab
    by_cases hx : norm x ∈ seen
    · rw [collapseActions, if_pos hx] at ha hb
      exact ih seen a ha b hb hab
    · rw [collapseActions, if_neg hx] at ha hb
      rcases List.mem_cons.1 ha with rfl | ha
      · rcases List.mem_cons.1 hb with rfl | hb
        · rfl
        · have := (mem_collapseActions norm xs _ b hb).2
          exact absurd (hab ▸ List.mem_cons_self (norm a) seen) this
      · rcases List.mem_cons.1 hb with rfl | hb
        · have := (mem_collapseActions norm xs _ a ha).2
          exact absurd (hab ▸ List.mem_cons_self (norm b) seen) this
        · exact ih _ a ha b hb hab

theorem collapseActions_first (norm : String → String) :
    ∀ (l seen : List String) (a : String), a ∈ l → norm a ∉ seen →
    ∃ b, b ∈ collapseActions norm seen l ∧ norm b = norm a ∧
      List.find? (fun x => norm x == norm a) l = some b := by
  intro l
  induction l with
  | nil => intro seen a ha; simp at ha
  | cons x xs ih =>
    intro seen a ha hseen
    by_cases hxa : norm x = norm a
    · by_cases hx : norm x ∈ seen
      · exact absurd (hxa ▸ hx) hseen
      · have hbeq : (norm x == norm a) = true := by simp [hxa]
        refine ⟨x, ?_, hxa, ?_⟩
        · rw [collapseActions, if_neg hx]
          exact List.mem_cons_self _ _
        · simp only [List.find?_cons, hbeq]
    · have hbeq : (norm x == norm a) = false := by simp [hxa]
      have ha' : a ∈ xs := by
        rcases List.mem_cons.1 ha with rfl | h
        · exact absurd rfl hxa
        · exact h
      by_cases hx : norm x ∈ seen
      · obtain ⟨b, hb1, hb2, hb3⟩ := ih seen a ha' hseen
        refine ⟨b, ?_, hb2, ?_⟩
        · rw [collapseActions, if_pos hx]; exact hb1
        · simp only [List.find?_cons, hbeq]
          exact hb3
      · have hseen' : norm a ∉ norm x :: seen := by
          intro hmem
          rcases List.mem_cons.1 hmem with h1 | h1
          · exact hxa h1.symm
          · exact hseen h1
        obtain ⟨b, hb1, hb2, hb3⟩ := ih (norm x :: seen) a ha' hseen'
        refine ⟨b, ?_, hb2, ?_⟩
        · rw [collapseActions, if_neg hx]
          exact List.mem_cons_of_mem _ hb1
        · simp only [List.find?_cons, hbeq]
          exact hb3

theorem dictGet_initialize_valid_actions (gd : GD) (ks : List String) (k : String) :
    dictGet (initialize_valid_actions gd ks) k
      = (dictGet gd k).map (fun alts =>
          collapseActions (normAction ks) [] (alts.map (fun rhs => k ++ " -> " ++ rhs))) := by
  induction gd with
  | nil => simp [initialize_valid_actions, dictGet]
  | cons p rest ih =>
    obtain ⟨k₀, v₀⟩ := p
    by_cases h : k₀ = k
    · subst h
      simp [initialize_valid_actions, dictGet]
    · simpa [initialize_valid_actions, dictGet, h] using ih

/-! ### Invariants of the column and table processing loops -/

theorem processColumns_frame (hc : Bool) (db : DB) (t : String) :
    ∀ (cols : List String) (gd : GD) (q q' : List (String × String)) (gd' : GD) (k : String),
    (∀ c ∈ cols, k ≠ t ++ "_" ++ c ++ "_string") →
    processColumns hc db t cols gd q = (Except.ok gd', q') →
    dictGet gd' k = dictGet gd k := by
  intro cols
  induction cols with
  | nil =>
    intro gd q q' gd' k _ hrun
    rw [processColumns] at hrun
    cases hrun
    rfl
  | cons c rest ih =>
    intro gd q q' gd' k hk hrun
    rw [processColumns] at hrun
    cases hc with
    | false => simp at hrun
    | true =>
      simp only [if_pos rfl] at hrun
      cases hq : dbQuery db t c with
      | none => rw [hq] at hrun; simp at hrun
      | some vs =>
        rw [hq] at hrun
        simp only at hrun
        have step := ih _ _ _ _ k (fun c' hc' => hk c' (List.mem_cons_of_mem _ hc')) hrun
        rw [step, dictGet_dictSet_ne _ _ _ _ (hk c (List.mem_cons_self _ _))]

theorem processColumns_set (hc : Bool) (db : DB) (t : String) :
    ∀ (cols : List String) (gd : GD) (q q' : List (String × String)) (gd' : GD)
      (c : String) (vs : List String),
    (cols.map (fun c => t ++ "_" ++ c ++ "_string")).Nodup →
    c ∈ cols →
    dbQuery db t c = some vs →
    processColumns hc db t cols gd q = (Except.ok gd', q') →
    dictGet gd' (t ++ "_" ++ c ++ "_string")
      = some (if strEndsWith c "number"
        then pySortedRev (vs.map (fun v => "\"" ++ v ++ "\""))
        else pySortedRev (vs.map (fun v => "\"\x27" ++ v ++ "\x27\""))) := by
  intro cols
  induction cols with
  | nil => intro gd q q' gd' c vs _ hcmem; simp at hcmem
  | cons c₀ rest ih =>
    intro gd q q' gd' c vs hnd hcmem hq hrun
    rw [processColumns] at hrun
    cases hc with
    | false => simp at hrun
    | true =>
      simp only [if_pos rfl] at hrun
      cases hq₀ : dbQuery db t c₀ with
      | none => rw [hq₀] at hrun; simp at hrun
      | some vs₀ =>
        rw [hq₀] at hrun
        simp only at hrun
        rcases List.mem_cons.1 hcmem with rfl | hcmem'
        · have hvs : vs₀ = vs := by
            rw [hq₀] at hq
            exact Option.some_inj.mp hq
          subst hvs
          have hnotin : (t ++ "_" ++ c ++ "_string") ∉
              rest.map (fun c' => t ++ "_" ++ c' ++ "_string") :=
            (List.nodup_cons.1 (by simpa using hnd)).1
          have hframe := processColumns_frame true db t rest _ _ _ _
            (t ++ "_" ++ c ++ "_string")
            (fun c' hc' heq => hnotin (heq ▸ List.mem_map_of_mem _ hc')) hrun
          rw [hframe, dictGet_dictSet_self]
        · exact ih _ _ _ _ c vs (by simpa using (List.nodup_cons.1 (by simpa using hnd)).2)
            hcmem' hq hrun

theorem mem_litNames : ∀ (tws : List (String × List String)) (x : String),
    x ∈ litNames tws ↔ ∃ p ∈ tws, ∃ c ∈ p.2, x = p.1 ++ "_" ++ c ++ "_string" := by
  intro tws
  induction tws with
  | nil => intro x; simp [litNames]
  | cons p rest ih =>
    obtain ⟨t, cols⟩ := p
    intro x
    simp only [litNames, List.mem_append, List.mem_map, ih, List.mem_cons]
    constructor
    · rintro (⟨c, hc, rfl⟩ | ⟨p', hp', c, hc, rfl⟩)
      · exact ⟨(t, cols), Or.inl rfl, c, hc, rfl⟩
      · exact ⟨p', Or.inr hp', c, hc, rfl⟩
    · rintro ⟨p', hp' | hp', c, hc, rfl⟩
      · subst hp'
        exact Or.inl ⟨c, hc, rfl⟩
      · exact Or.inr ⟨p', hp', c, hc, rfl⟩

theorem processTables_frame (hc : Bool) (db : DB) :
    ∀ (tws : List (String × List String)) (gd : GD) (bi : List String)
      (q q' : List (String × String)) (gd' : GD) (bi' : List String) (k : String),
    (∀ p ∈ tws, ∀ c ∈ p.2, k ≠ p.1 ++ "_" ++ c ++ "_string") →
    processTables hc db tws gd bi q = (Except.ok (gd', bi'), q') →
    dictGet gd' k = dictGet gd k := by
  intro tws
  induction tws with
  | nil =>
    intro gd bi q q' gd' bi' k _ hrun
    rw [processTables] at hrun
    cases hrun
    rfl
  | cons p rest ih =>
    obtain ⟨t, cols⟩ := p
    intro gd bi q q' gd' bi' k hk hrun
    rw [processTables] at hrun
    cases hpc : processColumns hc db t cols gd q with
    | mk res qmid =>
      rw [hpc] at hrun
      cases res with
      | error e => simp at hrun
      | ok gd₂ =>
        simp only at hrun
        have h₂ := ih _ _ _ _ _ _ k
          (fun p' hp' c hc' => hk p' (List.mem_cons_of_mem _ hp') c hc') hrun
        have h₁ := processColumns_frame hc db t cols _ _ _ _ k
          (fun c hc' => hk (t, cols) (List.mem_cons_self _ _) c hc') hpc
        rw [h₂, h₁]

theorem processTables_biexprs (hc : Bool) (db : DB) :
    ∀ (tws : List (String × List String)) (gd : GD) (bi : List String)
      (q q' : List (String × String)) (gd' : GD) (bi' : List String),
    processTables hc db tws gd bi q = (Except.ok (gd', bi'), q') →
    bi' = bi ++ synthesizedBiexprs tws := by
  intro tws
  induction tws with
  | nil =>
    intro gd bi q q' gd' bi' hrun
    rw [processTables] at hrun
    cases hrun
    simp [synthesizedBiexprs]
  | cons p rest ih =>
    obtain ⟨t, cols⟩ := p
    intro gd bi q q' gd' bi' hrun
    rw [processTables] at hrun
    cases hpc : processColumns hc db t cols gd q with
    | mk res qmid =>
      rw [hpc] at hrun
      cases res with
      | error e => simp at hrun
      | ok gd₂ =>
        simp only at hrun
        rw [ih _ _ _ _ _ _ hrun, synthesizedBiexprs, List.append_assoc]

theorem processTables_set (hc : Bool) (db : DB) :
    ∀ (tws : List (String × List String)) (gd : GD) (bi : List String)
      (q q' : List (String × String)) (gd' : GD) (bi' : List String)
      (t : String) (cols : List String) (c : String) (vs : List String),
    (litNames tws).Nodup →
    (t, cols) ∈ tws →
    c ∈ cols →
    dbQuery db t c = some vs →
    processTables hc db tws gd bi q = (Except.ok (gd', bi'), q') →
    dictGet gd' (t ++ "_" ++ c ++ "_string")
      = some (if strEndsWith c "number"
        then pySortedRev (vs.map (fun v => "\"" ++ v ++ "\""))
        else pySortedRev (vs.map (fun v => "\"\x27" ++ v ++ "\x27\""))) := by
  intro tws
  induction tws with
  | nil => intro gd bi q q' gd' bi' t cols c vs _ hmem; simp at hmem
  | cons p rest ih =>
    obtain ⟨t₀, cols₀⟩ := p
    intro gd bi q q' gd' bi' t cols c vs hnd hmem hcmem hq hrun
    rw [processTables] at hrun
    cases hpc : processColumns hc db t₀ cols₀ gd q with
    | mk res qmid =>
      rw [hpc] at hrun
      cases res with
      | error e => simp at hrun
      | ok gd₂ =>
        simp only at hrun
        have hnd' : (cols₀.map (fun c => t₀ ++ "_" ++ c ++ "_string")).Nodup
            ∧ (litNames rest).Nodup ∧
            ∀ x ∈ cols₀.map (fun c => t₀ ++ "_" ++ c ++ "_string"), x ∉ litNames rest := by
          rw [litNames] at hnd
          obtain ⟨h1, h2, h3⟩ := List.nodup_append.1 hnd
          exact ⟨h1, h2, fun x hx hx' => h3 hx hx'⟩
        rcases List.mem_cons.1 hmem with heq | hmem'
        · obtain ⟨rfl, rfl⟩ : t₀ = t ∧ cols₀ = cols := by
            injection heq with h1 h2
            exact ⟨h1.symm, h2.symm⟩
          have hset := processColumns_set hc db t₀ cols₀ _ _ _ _ c vs hnd'.1 hcmem hq hpc
          have hnotin : (t₀ ++ "_" ++ c ++ "_string") ∉ litNames rest :=
            hnd'.2.2 _ (List.mem_map_of_mem _ hcmem)
          have hframe := processTables_frame hc db rest _ _ _ _ _ _
            (t₀ ++ "_" ++ c ++ "_string")
            (fun p' hp' c' hc' heq' =>
              hnotin (heq' ▸ (mem_litNames rest _).2 ⟨p', hp', c', hc', rfl⟩)) hrun
          rw [hframe, hset]
        · exact ih _ _ _ _ _ _ t cols c vs hnd'.2.1 hmem' hcmem hq hrun

theorem processTables_attr (db : DB) :
    ∀ (tws : List (String × List String)) (gd : GD) (bi : List String)
      (q : List (String × String)),
    (∃ p ∈ tws, p.2 ≠ []) →
    processTables false db tws gd bi q = (Except.error InitError.attributeError, q) := by
  intro tws
  induction tws with
  | nil => intro gd bi q h; simp at h
  | cons p rest ih =>
    obtain ⟨t, cols⟩ := p
    intro gd bi q hex
    rw [processTables]
    cases cols with
    | nil =>
      have hex' : ∃ p ∈ rest, p.2 ≠ [] := by
        obtain ⟨p', hp', hne⟩ := hex
        rcases List.mem_cons.1 hp' with rfl | hp''
        · exact absurd rfl hne
        · exact ⟨p', hp'', hne⟩
      simp only [processColumns]
      exact ih _ _ _ hex'
    | cons c crest =>
      simp [processColumns]

/-! ### Determinism: the construction only depends on the data-source snapshot -/

/-- Relation between two optional query results: both fail, or both succeed
with row lists that are permutations of one another. -/
def optPerm : Option (List String) → Option (List String) → Prop
  | none, none => True
  | some l₁, some l₂ => l₁.Perm l₂
  | _, _ => False

/-- Two data sources hold the same snapshot when every (table, column) query
either fails in both or returns the same rows up to order. -/
def dbAgree (db₁ db₂ : DB) : Prop :=
  ∀ t c, optPerm (rawLookup db₁ t c) (rawLookup db₂ t c)

theorem dbQuery_perm {db₁ db₂ : DB} (h : dbAgree db₁ db₂) (t c : String) :
    optPerm (dbQuery db₁ t c) (dbQuery db₂ t c) := by
  have hrel := h t c
  rw [dbQuery, dbQuery]
  cases h₁ : rawLookup db₁ t c with
  | none =>
    cases h₂ : rawLookup db₂ t c with
    | none => trivial
    | some l₂ =>
      rw [h₁, h₂] at hrel
      exact hrel.elim
  | some l₁ =>
    cases h₂ : rawLookup db₂ t c with
    | none =>
      rw [h₁, h₂] at hrel
      exact hrel.elim
    | some l₂ =>
      rw [h₁, h₂] at hrel
      exact distinctAux_perm hrel

theorem processColumns_congr (hc : Bool) {db₁ db₂ : DB} (h : dbAgree db₁ db₂) (t : String) :
    ∀ (cols : List String) (gd : GD) (q : List (String × String)),
    processColumns hc db₁ t cols gd q = processColumns hc db₂ t cols gd q := by
  intro cols
  induction cols with
  | nil => intro gd q; rw [processColumns, processColumns]
  | cons c rest ih =>
    intro gd q
    rw [processColumns, processColumns]
    cases hc with
    | false => rfl
    | true =>
      simp only [if_pos rfl]
      have hq := dbQuery_perm h t c
      cases h₁ : dbQuery db₁ t c with
      | none =>
        cases h₂ : dbQuery db₂ t c with
        | none => rfl
        | some l₂ =>
          rw [h₁, h₂] at hq
          exact hq.elim
      | some l₁ =>
        cases h₂ : dbQuery db₂ t c with
        | none =>
          rw [h₁, h₂] at hq
          exact hq.elim
        | some l₂ =>
          rw [h₁, h₂] at hq
          have hentry : (if strEndsWith c "number"
              then pySortedRev (l₁.map (fun v => "\"" ++ v ++ "\""))
              else pySortedRev (l₁.map (fun v => "\"\x27" ++ v ++ "\x27\"")))
              = (if strEndsWith c "number"
              then pySortedRev (l₂.map (fun v => "\"" ++ v ++ "\""))
              else pySortedRev (l₂.map (fun v => "\"\x27" ++ v ++ "\x27\""))) := by
            cases strEndsWith c "number" with
            | true => exact pySortedRev_eq_of_perm (hq.map _)
            | false => exact pySortedRev_eq_of_perm (hq.map _)
          show processColumns true db₁ t rest
              (dictSet gd (t ++ "_" ++ c ++ "_string")
                (if strEndsWith c "number"
                  then pySortedRev (l₁.map (fun v => "\"" ++ v ++ "\""))
                  else pySortedRev (l₁.map (fun v => "\"\x27" ++ v ++ "\x27\""))))
              (q ++ [(t, c)])
            = processColumns true db₂ t rest
              (dictSet gd (t ++ "_" ++ c ++ "_string")
                (if strEndsWith c "number"
                  then pySortedRev (l₂.map (fun v => "\"" ++ v ++ "\""))
                  else pySortedRev (l₂.map (fun v => "\"\x27" ++ v ++ "\x27\""))))
              (q ++ [(t, c)])
          rw [hentry]
          exact ih _ _

theorem processTables_congr (hc : Bool) {db₁ db₂ : DB} (h : dbAgree db₁ db₂) :
    ∀ (tws : List (String × List String)) (gd : GD) (bi : List String)
      (q : List (String × String)),
    processTables hc db₁ tws gd bi q = processTables hc db₂ tws gd bi q := by
  intro tws
  induction tws with
  | nil => intro gd bi q; rw [processTables, processTables]
  | cons p rest ih =>
    obtain ⟨t, cols⟩ := p
    intro gd bi q
    rw [processTables, processTables]
    rw [processColumns_congr hc h t cols gd q]
    cases hpc : processColumns hc db₂ t cols gd q with
    | mk res qmid =>
      cases res with
      | error e => rfl
      | ok gd₂ => exact ih _ _ _

theorem initialize_grammar_str_congr {db₁ db₂ : DB} (h : dbAgree db₁ db₂)
    (allTables tws : Option (List (String × List String))) (hc : Bool) (gd₀ : GD) :
    initialize_grammar_str allTables tws hc db₁ gd₀
      = initialize_grammar_str allTables tws hc db₂ gd₀ := by
  rw [initialize_grammar_str, initialize_grammar_str,
    processTables_congr hc h (tws.getD []) (augmentSchema allTables gd₀) [] []]

/-! ### Inversion of a successful construction -/

theorem igs_ok {allTables tws : Option (List (String × List String))} {hc : Bool}
    {db : DB} {gd₀ gd : GD} {gs : String} {q : List (String × String)}
    (h : initialize_grammar_str allTables tws hc db gd₀ = (Except.ok (gd, gs), q)) :
    ∃ gd₂ biexprs,
      (if pyTruthyDict tws
        then processTables hc db (tws.getD []) (augmentSchema allTables gd₀) [] []
        else (Except.ok (augmentSchema allTables gd₀, []), []))
        = (Except.ok (gd₂, biexprs), q)
      ∧ gd = mkFinalGD gd₂ biexprs := by
  rw [initialize_grammar_str] at h
  cases hig : (if pyTruthyDict tws
      then processTables hc db (tws.getD []) (augmentSchema allTables gd₀) [] []
      else (Except.ok (augmentSchema allTables gd₀, []), [])) with
  | mk res q' =>
    rw [hig] at h
    cases res with
    | error e => simp at h
    | ok p =>
      obtain ⟨gd₂, biexprs⟩ := p
      simp only [Prod.mk.injEq, Except.ok.injEq] at h
      obtain ⟨⟨hgd, _⟩, hq⟩ := h
      exact ⟨gd₂, biexprs, by rw [hq], hgd.symm⟩

theorem atisInit_ok {allTables tws : Option (List (String × List String))}
    {df : Option String} {db : DB} {ctx : AtisContext}
    (h : (atisInit allTables tws df db).result = Except.ok ctx) :
    ∃ gs q, initialize_grammar_str allTables tws (pyTruthyStr df) db GRAMMAR_DICTIONARY
      = (Except.ok (ctx.grammarDictionary, gs), q) := by
  rw [atisInit] at h
  cases hig : initialize_grammar_str allTables tws (pyTruthyStr df) db GRAMMAR_DICTIONARY with
  | mk res q =>
    rw [hig] at h
    cases res with
    | error e => simp at h
    | ok p =>
      obtain ⟨gd, gs⟩ := p
      simp only [] at h
      cases hgc : grammarCompiles gd with
      | false =>
        rw [hgc] at h
        simp at h
      | true =>
        rw [hgc] at h
        rw [if_pos rfl] at h
        simp only [Except.ok.injEq] at h
        exact ⟨gs, q, by rw [← h]⟩

/-- A falsy optional dict argument denotes no tables at all. -/
theorem getD_of_not_truthy {o : Option (List (String × List String))}
    (h : pyTruthyDict o = false) : o.getD [] = [] := by
  cases o with
  | none => rfl
  | some l =>
    cases l with
    | nil => rfl
    | cons p rest => simp [pyTruthyDict] at h

/-! ### Remaining helper lemmas -/

theorem exists_ok_of_isOk {ε α : Type} {e : Except ε α} (h : e.isOk = true) :
    ∃ a, e = Except.ok a := by
  cases e with
  | error err => simp [Except.isOk, Except.toBool] at h
  | ok a => exact ⟨a, rfl⟩

theorem pyGt_of_pyGe_ne {a b : String} (h1 : pyGe a b) (h2 : a ≠ b) : pyGt a b := by
  cases h : charListLt b.data a.data with
  | true => exact h
  | false => exact absurd (String.ext (charListLt_conn _ _ h1 h)) h2

theorem quote_injective : Function.Injective (fun t : String => "\"" ++ t ++ "\"") := by
  intro t₁ t₂ h
  have hd := congrArg String.data h
  simp only [String.data_append] at hd
  exact String.ext (List.append_cancel_left (List.append_cancel_right hd))

/-- The `table_name` entry installed by a truthy schema. -/
theorem augmentSchema_table_name (ts : List (String × List String)) (gd : GD)
    (hts : ts ≠ []) :
    dictGet (augmentSchema (some ts) gd) "table_name"
      = some (pySortedRev (ts.map (fun p => "\"" ++ p.1 ++ "\""))) := by
  have htr : pyTruthyDict (some ts) = true := by
    cases ts with
    | nil => exact absurd rfl hts
    | cons p rest => rfl
  rw [augmentSchema, htr, if_pos rfl]
  rw [dictGet_dictSet_ne _ _ _ _ (by decide), dictGet_dictSet_self]
  rfl

/-- Keys other than `table_name` and `col_ref` are untouched by the schema
augmentation. -/
theorem augmentSchema_frame (allTables : Option (List (String × List String))) (gd : GD)
    (k : String) (h1 : k ≠ "table_name") (h2 : k ≠ "col_ref") :
    dictGet (augmentSchema allTables gd) k = dictGet gd k := by
  rw [augmentSchema]
  cases htr : pyTruthyDict allTables with
  | false => rw [if_neg (by simp)]
  | true =>
    rw [if_pos rfl]
    rw [dictGet_dictSet_ne _ _ _ _ h2, dictGet_dictSet_ne _ _ _ _ h1]

/-! ## Claim C1 -/

/-- Claim C1, counterexample: in a schema-present construction whose
constrained pairs are processed in the order `a.col`, `b.col`, the
synthesized `biexpr` productions appear sorted descending (`b` form before
`a` form), not in processing order. -/
theorem c1_processing_order_counterexample :
    resultEntry (atisInit (some [("a", ["col"]), ("b", ["col"])])
        (some [("a", ["col"]), ("b", ["col"])]) (some "db")
        [(("a", "col"), ["v"]), (("b", "col"), ["w"])]) "biexpr"
      = some (some ["(\"b\" ws \".\" ws \"col\" ws binaryop ws b_col_string)",
          "(\"a\" ws \".\" ws \"col\" ws binaryop ws a_col_string)",
          "( col_ref ws binaryop ws value)", "(value ws binaryop ws value)"])
    ∧ (["(\"b\" ws \".\" ws \"col\" ws binaryop ws b_col_string)",
          "(\"a\" ws \".\" ws \"col\" ws binaryop ws a_col_string)",
          "( col_ref ws binaryop ws value)", "(value ws binaryop ws value)"] : List String)
      ≠ ["(\"a\" ws \".\" ws \"col\" ws binaryop ws a_col_string)",
          "(\"b\" ws \".\" ws \"col\" ws binaryop ws b_col_string)",
          "( col_ref ws binaryop ws value)", "(value ws binaryop ws value)"] :=
  ⟨rfl, by decide⟩

/-- Claim C1 (amended): in every successful construction the `biexpr` entry
consists of the synthesized per-pair productions sorted in descending
lexicographic order (not in processing order), followed by the two generic
fallback alternatives as the last two entries. -/
theorem c1_biexpr_sorted_then_fallbacks
    (allTables tws : Option (List (String × List String)))
    (df : Option String) (db : DB) (ctx : AtisContext)
    (h : (atisInit allTables tws df db).result = Except.ok ctx) :
    dictGet ctx.grammarDictionary "biexpr"
      = some (pySortedRev (synthesizedBiexprs (tws.getD []))
          ++ ["( col_ref ws binaryop ws value)", "(value ws binaryop ws value)"]) := by
  obtain ⟨gs, q, hig⟩ := atisInit_ok h
  obtain ⟨gd₂, biexprs, hpt, hgd⟩ := igs_ok hig
  rw [hgd, mkFinalGD, dictGet_dictSet_self]
  cases htr : pyTruthyDict tws with
  | false =>
    rw [htr, if_neg (by simp)] at hpt
    simp only [Prod.mk.injEq, Except.ok.injEq] at hpt
    obtain ⟨⟨_, hbi⟩, _⟩ := hpt
    rw [← hbi, getD_of_not_truthy htr]
    rfl
  | true =>
    rw [htr, if_pos rfl] at hpt
    rw [processTables_biexprs _ _ _ _ _ _ _ _ _ hpt, List.nil_append]

/-- Claim C1, witness for the amended theorem at a concrete successful
construction. -/
theorem c1_witness :
    ∃ ctx, (atisInit (some [("a", ["col"]), ("b", ["col"])])
        (some [("a", ["col"]), ("b", ["col"])]) (some "db")
        [(("a", "col"), ["v"]), (("b", "col"), ["w"])]).result = Except.ok ctx
      ∧ dictGet ctx.grammarDictionary "biexpr"
        = some (pySortedRev (synthesizedBiexprs
            ((some [("a", ["col"]), ("b", ["col"])]).getD []))
          ++ ["( col_ref ws binaryop ws value)", "(value ws binaryop ws value)"]) := by
  obtain ⟨ctx, hctx⟩ := exists_ok_of_isOk
    (show (atisInit (some [("a", ["col"]), ("b", ["col"])])
        (some [("a", ["col"]), ("b", ["col"])]) (some "db")
        [(("a", "col"), ["v"]), (("b", "col"), ["w"])]).result.isOk = true from rfl)
  exact ⟨ctx, hctx, c1_biexpr_sorted_then_fallbacks _ _ _ _ _ hctx⟩

/-! ## Claim C2 -/

/-- Claim C2, counterexample: for the schema `{city: [city_name, state]}` the
`col_ref` list does not start with the wildcard; the full descending sort
places `"*"` last, after the parenthesized column alternatives. -/
theorem c2_wildcard_first_counterexample :
    resultEntry (atisInit (some [("city", ["city_name", "state"])]) none none []) "col_ref"
      ≠ some (some ["\"*\"", "(\"city\" ws \".\" ws \"state\")",
          "(\"city\" ws \".\" ws \"city_name\")"]) := by
  decide

/-- Claim C2 (amended): for the schema `{city: [city_name, state]}` with no
string constraints, `table_name` is exactly `["city"]` quoted and `col_ref` is
exactly the three alternatives in descending order: the `state` alternative,
then the `city_name` alternative, then the wildcard last. -/
theorem c2_city_schema_productions :
    resultEntry (atisInit (some [("city", ["city_name", "state"])]) none none []) "table_name"
      = some (some ["\"city\""])
    ∧ resultEntry (atisInit (some [("city", ["city_name", "state"])]) none none []) "col_ref"
      = some (some ["(\"city\" ws \".\" ws \"state\")",
          "(\"city\" ws \".\" ws \"city_name\")", "\"*\""]) :=
  ⟨rfl, rfl⟩

/-! ## Claim C3 -/

/-- Claim C3, counterexample: a construction that opened the connection and
then failed in a distinct-value query leaves the connection unclosed. -/
theorem c3_not_closed_on_error_counterexample :
    (atisInit none (some [("t", ["c"])]) (some "db") []).connectionOpened = true
    ∧ (atisInit none (some [("t", ["c"])]) (some "db") []).result
        = Except.error InitError.dataSourceError
    ∧ (atisInit none (some [("t", ["c"])]) (some "db") []).connectionClosed = false :=
  ⟨rfl, rfl, rfl⟩

/-- Claim C3 (amended): whenever construction opens a connection, the
connection is closed exactly when construction succeeds; on the error exit
path (a failing query or missing cursor) it stays open. -/
theorem c3_connection_closed_iff_success
    (allTables tws : Option (List (String × List String)))
    (df : Option String) (db : DB)
    (h : (atisInit allTables tws df db).connectionOpened = true) :
    (atisInit allTables tws df db).connectionClosed
      = (atisInit allTables tws df db).result.isOk := by
  rw [atisInit] at h ⊢
  cases hig : initialize_grammar_str allTables tws (pyTruthyStr df) db GRAMMAR_DICTIONARY with
  | mk res q =>
    rw [hig] at h
    cases res with
    | error e => rfl
    | ok p =>
      obtain ⟨gd, gs⟩ := p
      simp only [] at h ⊢
      cases hgc : grammarCompiles gd with
      | false => rfl
      | true =>
        rw [hgc] at h
        exact h

/-- Claim C3, witness for the amended theorem: a successful schema-present
construction with a database file closes its connection. -/
theorem c3_witness :
    (atisInit (some [("city", ["city_name"])]) none (some "db") []).connectionOpened = true
    ∧ (atisInit (some [("city", ["city_name"])]) none (some "db") []).connectionClosed
        = (atisInit (some [("city", ["city_name"])]) none (some "db") []).result.isOk :=
  ⟨rfl, c3_connection_closed_iff_success (some [("city", ["city_name"])]) none
    (some "db") [] rfl⟩

/-! ## Claim C9 -/

/-- Claim C9: when no schema is supplied, building the grammar dictionary
(`initialize_grammar_str`, before the compile step that then rejects the
schema-less grammar) leaves the `table_name` and `col_ref` entries exactly as
in the base grammar template: absent there, absent in the built dictionary. -/
theorem c9_no_schema_template_entries
    (tws : Option (List (String × List String))) (hc : Bool) (db : DB)
    (gd : GD) (gs : String) (q : List (String × String))
    (h : initialize_grammar_str none tws hc db GRAMMAR_DICTIONARY
      = (Except.ok (gd, gs), q)) :
    dictGet gd "table_name" = dictGet GRAMMAR_DICTIONARY "table_name"
    ∧ dictGet gd "col_ref" = dictGet GRAMMAR_DICTIONARY "col_ref" := by
  obtain ⟨gd₂, biexprs, hpt, hgd⟩ := igs_ok h
  have haug : augmentSchema none GRAMMAR_DICTIONARY = GRAMMAR_DICTIONARY := rfl
  have step : ∀ k : String, (∀ t c : String, k ≠ t ++ "_" ++ c ++ "_string") →
      dictGet gd₂ k = dictGet GRAMMAR_DICTIONARY k := by
    intro k hk
    cases htr : pyTruthyDict tws with
    | false =>
      rw [htr, if_neg (by simp)] at hpt
      simp only [Prod.mk.injEq, Except.ok.injEq] at hpt
      obtain ⟨⟨hgd2, _⟩, _⟩ := hpt
      rw [← hgd2, haug]
    | true =>
      rw [htr, if_pos rfl] at hpt
      rw [processTables_frame _ _ _ _ _ _ _ _ _ k (fun p _ c _ => hk p.1 c) hpt, haug]
  constructor
  · rw [hgd, mkFinalGD, dictGet_dictSet_ne _ _ _ _ (by decide)]
    exact step _ (fun t c => (litName_ne_table_name t c).symm)
  · rw [hgd, mkFinalGD, dictGet_dictSet_ne _ _ _ _ (by decide)]
    exact step _ (fun t c => (litName_ne_col_ref t c).symm)

/-- Claim C9, witness: a concrete schema-less grammar-dictionary build — the
step the real `__init__` completes before `Grammar(...)` then raises on the
undefined `col_ref`/`table_name` — leaves both entries as in the template. -/
theorem c9_witness :
    initialize_grammar_str none none false [] GRAMMAR_DICTIONARY
      = (Except.ok (mkFinalGD GRAMMAR_DICTIONARY [],
          format_grammar_string (mkFinalGD GRAMMAR_DICTIONARY [])), [])
    ∧ dictGet (mkFinalGD GRAMMAR_DICTIONARY []) "table_name"
        = dictGet GRAMMAR_DICTIONARY "table_name"
    ∧ dictGet (mkFinalGD GRAMMAR_DICTIONARY []) "col_ref"
        = dictGet GRAMMAR_DICTIONARY "col_ref" :=
  ⟨rfl, c9_no_schema_template_entries none false [] _ _ [] rfl⟩

/-! ## Claim C10 -/

/-- Claim C10, counterexample: with a schema supplied, `tables_with_strings`
that is non-empty (hence truthy) but maps its table to an empty column list
raises nothing even without a database file — the inner column loop never
touches the cursor, the grammar compiles, and construction returns an
object. -/
theorem c10_empty_columns_counterexample :
    pyTruthyDict (some [("t", ([] : List String))]) = true
    ∧ pyTruthyStr none = false
    ∧ (atisInit (some [("city", ["city_name"])]) (some [("t", [])]) none
        []).result.isOk = true :=
  ⟨rfl, rfl, rfl⟩

/-- Claim C10 (amended): if `tables_with_strings` contains at least one table
with a non-empty column list and no truthy database file is supplied,
construction raises `AttributeError` at the first cursor access, before any
distinct-value query is executed, and never returns a constructed object;
when every constrained table maps to an empty column list the cursor is never
needed and construction can return normally. -/
theorem c10_attribute_error_before_queries
    (allTables : Option (List (String × List String)))
    (l : List (String × List String)) (df : Option String) (db : DB)
    (t : String) (cols : List String)
    (hdf : pyTruthyStr df = false)
    (hmem : (t, cols) ∈ l) (hcols : cols ≠ []) :
    (atisInit allTables (some l) df db).result = Except.error InitError.attributeError
    ∧ (atisInit allTables (some l) df db).queriedPairs = [] := by
  have htr : pyTruthyDict (some l) = true := by
    cases l with
    | nil => simp at hmem
    | cons p rest => rfl
  have hpt := processTables_attr db l (augmentSchema allTables GRAMMAR_DICTIONARY) [] []
    ⟨(t, cols), hmem, hcols⟩
  have hig : initialize_grammar_str allTables (some l) (pyTruthyStr df) db GRAMMAR_DICTIONARY
      = (Except.error InitError.attributeError, []) := by
    rw [initialize_grammar_str, htr, if_pos rfl, hdf]
    simp only [Option.getD_some]
    rw [hpt]
  rw [atisInit, hig]
  exact ⟨rfl, rfl⟩

/-- Claim C10, witness for the amended theorem at a concrete input. -/
theorem c10_witness :
    pyTruthyStr (none : Option String) = false
    ∧ (("t", ["c"]) ∈ [(("t" : String), ["c"])])
    ∧ (["c"] : List String) ≠ []
    ∧ (atisInit none (some [("t", ["c"])]) none []).result
        = Except.error InitError.attributeError
    ∧ (atisInit none (some [("t", ["c"])]) none []).queriedPairs = [] := by
  have h := c10_attribute_error_before_queries none [("t", ["c"])] none [] "t" ["c"]
    rfl (List.mem_cons_self _ _) (by simp)
  exact ⟨rfl, List.mem_cons_self _ _, by simp, h.1, h.2⟩

/-! ## Claim C4 -/

/-- Claim C4: in the valid-action table, any two productions of the same
nonterminal that differ only in the letter-casing of keywords from the fixed
`KEYWORDS` list (that is, that share a case-normal form) collapse to exactly
one canonical action, and the one kept is the first-encountered rendering.
The spec is the authority here, `initialize_valid_actions` not being among the
provided source files. -/
theorem c4_keyword_case_collapse (gd : GD) (nt : String) (alts : List String)
    (h : dictGet gd nt = some alts) :
    ∃ acts, dictGet (initialize_valid_actions gd KEYWORDS) nt = some acts
      ∧ (∀ a ∈ acts, ∀ b ∈ acts,
          normAction KEYWORDS a = normAction KEYWORDS b → a = b)
      ∧ (∀ a ∈ alts.map (fun rhs => nt ++ " -> " ++ rhs), ∃ b, b ∈ acts
          ∧ normAction KEYWORDS b = normAction KEYWORDS a
          ∧ List.find? (fun x => normAction KEYWORDS x == normAction KEYWORDS a)
              (alts.map (fun rhs => nt ++ " -> " ++ rhs)) = some b) := by
  refine ⟨collapseActions (normAction KEYWORDS) []
      (alts.map (fun rhs => nt ++ " -> " ++ rhs)), ?_, ?_, ?_⟩
  · rw [dictGet_initialize_valid_actions, h]
    rfl
  · intro a ha b hb hab
    exact collapseActions_norm_inj (normAction KEYWORDS) _ [] a ha b hb hab
  · intro a ha
    obtain ⟨b, hb1, hb2, hb3⟩ :=
      collapseActions_first (normAction KEYWORDS) _ [] a ha (by simp)
    exact ⟨b, hb1, hb2, hb3⟩

/-- Claim C4, witness: the lowercase `"min"` aggregate production collapses
into the earlier `"MIN"` rendering. -/
theorem c4_witness :
    dictGet [(("agg_func" : String), ["\"MIN\"", "\"min\"", "\"MAX\""])] "agg_func"
      = some ["\"MIN\"", "\"min\"", "\"MAX\""]
    ∧ ∃ acts, dictGet (initialize_valid_actions
          [(("agg_func" : String), ["\"MIN\"", "\"min\"", "\"MAX\""])] KEYWORDS) "agg_func"
        = some acts
      ∧ (∀ a ∈ acts, ∀ b ∈ acts,
          normAction KEYWORDS a = normAction KEYWORDS b → a = b)
      ∧ (∀ a ∈ (["\"MIN\"", "\"min\"", "\"MAX\""] : List String).map
            (fun rhs => "agg_func" ++ " -> " ++ rhs), ∃ b, b ∈ acts
          ∧ normAction KEYWORDS b = normAction KEYWORDS a
          ∧ List.find? (fun x => normAction KEYWORDS x == normAction KEYWORDS a)
              ((["\"MIN\"", "\"min\"", "\"MAX\""] : List String).map
                (fun rhs => "agg_func" ++ " -> " ++ rhs)) = some b) :=
  ⟨rfl, c4_keyword_case_collapse _ "agg_func" _ rfl⟩

/-! ## Claim C5 -/

/-- Claim C5: two constructions from identical inputs and identical
data-source snapshots — the rows of every queried column agreeing up to the
order the data source returns them in — produce identical results, in
particular byte-identical valid-action tables. -/
theorem c5_construction_deterministic
    (allTables tws : Option (List (String × List String)))
    (df : Option String) (db₁ db₂ : DB) (h : dbAgree db₁ db₂) :
    atisInit allTables tws df db₁ = atisInit allTables tws df db₂ := by
  rw [atisInit, atisInit, initialize_grammar_str_congr h]

/-- Claim C5, witness: the same snapshot of `city.state` rows handed back in
two different orders yields the same constructed context. -/
theorem c5_witness :
    dbAgree [(("city", "state"), ["CA", "TX", "CA"])]
        [(("city", "state"), ["TX", "CA", "CA"])]
    ∧ atisInit (some [("city", ["state"])]) (some [("city", ["state"])]) (some "db")
        [(("city", "state"), ["CA", "TX", "CA"])]
      = atisInit (some [("city", ["state"])]) (some [("city", ["state"])]) (some "db")
        [(("city", "state"), ["TX", "CA", "CA"])] := by
  have hagree : dbAgree [(("city", "state"), ["CA", "TX", "CA"])]
      [(("city", "state"), ["TX", "CA", "CA"])] := by
    intro t c
    by_cases hk : (("city", "state") : String × String) = (t, c)
    · simp only [rawLookup, if_pos hk]
      show List.Perm ["CA", "TX", "CA"] ["TX", "CA", "CA"]
      decide
    · simp only [rawLookup, if_neg hk]
      trivial
  exact ⟨hagree, c5_construction_deterministic _ _ _ _ _ hagree⟩

/-! ## Claim C6 -/

/-- Claim C6: for any supplied schema with unique table names, the
`table_name` alternatives of the constructed grammar are exactly one quoted
table name per table, in strictly descending lexicographic order (an empty
schema is falsy and leaves the template's absence of the entry, read as no
alternatives). -/
theorem c6_table_name_productions
    (ts : List (String × List String)) (tws : Option (List (String × List String)))
    (df : Option String) (db : DB) (ctx : AtisContext)
    (hnd : (ts.map Prod.fst).Nodup)
    (h : (atisInit (some ts) tws df db).result = Except.ok ctx) :
    ((dictGet ctx.grammarDictionary "table_name").getD []).length = ts.length
    ∧ (∀ x ∈ (dictGet ctx.grammarDictionary "table_name").getD [],
        ∃ p ∈ ts, x = "\"" ++ p.1 ++ "\"")
    ∧ ((dictGet ctx.grammarDictionary "table_name").getD []).Pairwise pyGt := by
  obtain ⟨gs, q, hig⟩ := atisInit_ok h
  obtain ⟨gd₂, biexprs, hpt, hgd⟩ := igs_ok hig
  have hentry : dictGet ctx.grammarDictionary "table_name"
      = dictGet (augmentSchema (some ts) GRAMMAR_DICTIONARY) "table_name" := by
    rw [hgd, mkFinalGD, dictGet_dictSet_ne _ _ _ _ (by decide)]
    cases htr : pyTruthyDict tws with
    | false =>
      rw [htr, if_neg (by simp)] at hpt
      simp only [Prod.mk.injEq, Except.ok.injEq] at hpt
      obtain ⟨⟨hgd2, _⟩, _⟩ := hpt
      rw [← hgd2]
    | true =>
      rw [htr, if_pos rfl] at hpt
      exact processTables_frame _ _ _ _ _ _ _ _ _ "table_name"
        (fun p _ c _ => (litName_ne_table_name p.1 c).symm) hpt
  cases hts : ts with
  | nil =>
    subst hts
    rw [hentry]
    have hnone : dictGet (augmentSchema (some []) GRAMMAR_DICTIONARY) "table_name" = none := by
      decide
    rw [hnone]
    exact ⟨rfl, fun x hx => absurd hx (List.not_mem_nil x), List.Pairwise.nil⟩
  | cons p₀ rest =>
    subst hts
    rw [hentry, augmentSchema_table_name _ _ (by simp)]
    have hperm := pySortedRev_perm ((p₀ :: rest).map (fun p => "\"" ++ p.1 ++ "\""))
    refine ⟨?_, ?_, ?_⟩
    · rw [Option.getD_some, hperm.length_eq, List.length_map]
    · intro x hx
      rw [Option.getD_some] at hx
      obtain ⟨p, hp, hpx⟩ := List.mem_map.1 (hperm.mem_iff.1 hx)
      exact ⟨p, hp, hpx.symm⟩
    · rw [Option.getD_some]
      have hnodupL : ((p₀ :: rest).map (fun p => "\"" ++ p.1 ++ "\"")).Nodup := by
        have hmm : (p₀ :: rest).map (fun p => "\"" ++ p.1 ++ "\"")
            = ((p₀ :: rest).map Prod.fst).map (fun t => "\"" ++ t ++ "\"") := by
          rw [List.map_map]
          rfl
        rw [hmm]
        exact hnd.map quote_injective
      have hnodup := hperm.symm.nodup hnodupL
      have hsorted := pySortedRev_sorted ((p₀ :: rest).map (fun p => "\"" ++ p.1 ++ "\""))
      exact (hsorted.and hnodup).imp (fun hab => pyGt_of_pyGe_ne hab.1 hab.2)

/-- Claim C6, witness at a concrete two-table schema. -/
theorem c6_witness :
    (([("city", ["city_name"]), ("airport", [])] : List (String × List String)).map
        Prod.fst).Nodup
    ∧ ∃ ctx, (atisInit (some [("city", ["city_name"]), ("airport", [])]) none none []).result
        = Except.ok ctx
      ∧ (((dictGet ctx.grammarDictionary "table_name").getD []).length
          = ([("city", ["city_name"]), ("airport", [])] : List (String × List String)).length
        ∧ (∀ x ∈ (dictGet ctx.grammarDictionary "table_name").getD [],
            ∃ p ∈ ([("city", ["city_name"]), ("airport", [])] : List (String × List String)),
              x = "\"" ++ p.1 ++ "\"")
        ∧ ((dictGet ctx.grammarDictionary "table_name").getD []).Pairwise pyGt) := by
  obtain ⟨ctx, hctx⟩ := exists_ok_of_isOk
    (show (atisInit (some [("city", ["city_name"]), ("airport", [])]) none none
        []).result.isOk = true from rfl)
  exact ⟨by decide, ctx, hctx, c6_table_name_productions _ _ _ _ _ (by decide) hctx⟩

/-! ## Claim C7 -/

/-- Claim C7: with the constraint `{city: [state]}` against rows CA, TX, CA —
in a construction whose schema also names the table, so that the compiled
grammar is well-formed and construction returns — the `city_state_string`
nonterminal has exactly the two single-quoted distinct values, TX before CA
(descending). -/
theorem c7_city_state_distinct_literals :
    resultEntry (atisInit (some [("city", ["state"])]) (some [("city", ["state"])]) (some "db")
        [(("city", "state"), ["CA", "TX", "CA"])]) "city_state_string"
      = some (some ["\"\x27TX\x27\"", "\"\x27CA\x27\""]) := rfl

/-! ## Claim C8 -/

/-- Claim C8: for every constrained (table, column) pair whose generated
nonterminal names do not clash, the literal entry of a successful
construction renders every extracted distinct value unquoted when the column
name ends with "number" and single-quoted otherwise, sorted descending. -/
theorem c8_literal_rendering
    (allTables : Option (List (String × List String)))
    (tl : List (String × List String)) (df : Option String) (db : DB)
    (ctx : AtisContext) (t : String) (cols : List String) (c : String) (vs : List String)
    (hnd : (litNames tl).Nodup)
    (hmem : (t, cols) ∈ tl) (hc : c ∈ cols)
    (hq : dbQuery db t c = some vs)
    (h : (atisInit allTables (some tl) df db).result = Except.ok ctx) :
    dictGet ctx.grammarDictionary (t ++ "_" ++ c ++ "_string")
      = some (if strEndsWith c "number"
        then pySortedRev (vs.map (fun v => "\"" ++ v ++ "\""))
        else pySortedRev (vs.map (fun v => "\"\x27" ++ v ++ "\x27\""))) := by
  obtain ⟨gs, q, hig⟩ := atisInit_ok h
  obtain ⟨gd₂, biexprs, hpt, hgd⟩ := igs_ok hig
  have htr : pyTruthyDict (some tl) = true := by
    cases tl with
    | nil => simp at hmem
    | cons p rest => rfl
  rw [htr, if_pos rfl] at hpt
  simp only [Option.getD_some] at hpt
  rw [hgd, mkFinalGD, dictGet_dictSet_ne _ _ _ _ (litName_ne_biexpr t c)]
  exact processTables_set _ _ _ _ _ _ _ _ _ _ _ _ _ hnd hmem hc hq hpt

/-- Claim C8, witness: a "number"-suffixed column renders unquoted literals,
sorted descending, at a concrete construction. -/
theorem c8_witness :
    (litNames [("flight", ["flight_number"])]).Nodup
    ∧ (("flight", ["flight_number"]) ∈
        [(("flight" : String), ["flight_number"])])
    ∧ ("flight_number" ∈ ["flight_number"])
    ∧ dbQuery [(("flight", "flight_number"), ["12", "3"])] "flight" "flight_number"
        = some ["12", "3"]
    ∧ ∃ ctx, (atisInit (some [("flight", ["flight_number"])])
        (some [("flight", ["flight_number"])]) (some "db")
        [(("flight", "flight_number"), ["12", "3"])]).result = Except.ok ctx
      ∧ dictGet ctx.grammarDictionary ("flight" ++ "_" ++ "flight_number" ++ "_string")
        = some (if strEndsWith "flight_number" "number"
          then pySortedRev ((["12", "3"] : List String).map (fun v => "\"" ++ v ++ "\""))
          else pySortedRev ((["12", "3"] : List String).map
            (fun v => "\"\x27" ++ v ++ "\x27\""))) := by
  obtain ⟨ctx, hctx⟩ := exists_ok_of_isOk
    (show (atisInit (some [("flight", ["flight_number"])])
        (some [("flight", ["flight_number"])]) (some "db")
        [(("flight", "flight_number"), ["12", "3"])]).result.isOk = true from rfl)
  refine ⟨by decide, by simp, by simp, rfl, ctx, hctx, ?_⟩
  exact c8_literal_rendering (some [("flight", ["flight_number"])])
    [("flight", ["flight_number"])] (some "db")
    [(("flight", "flight_number"), ["12", "3"])] ctx "flight" ["flight_number"]
    "flight_number" ["12", "3"] (by decide) (by simp) (by simp) rfl hctx
